import Mathlib

/-!
Verification of the postal-geometry pipeline (`scripts/clip-postal-geojson.cjs`).

The pipeline is embedded shallowly.  Geometric primitives (union, intersect,
difference, bbox, centroid, area, distance) live in the external geometry
library; they are abstracted as fields of a `Turf` structure, with `Option`
results modelling operations that may throw or return null.  A thrown
exception that the script catches is modelled by the surrounding code
treating `none` exactly as the catch block does; a thrown exception that is
not caught propagates as `none` in the result of the enclosing function.
A concrete executable instance `listTurf` (geometries as finite lists of
rational points) is used to evaluate the pipeline on concrete inputs.
-/

/-- GeoJSON feature properties, restricted to the parts the pipeline reads:
the `postnummer` key (absent = `none`, present-but-empty = `some ""`,
both falsy in JS) and a bag `other` standing for all remaining keys. -/
structure Props where
  postnummer : Option String
  other : List (String × String)
deriving DecidableEq, Repr

/-- A GeoJSON feature: `properties` may be null (`none`), `geometry` may be
null (`none`).  The constant `type: 'Feature'` tag is not modelled. -/
structure Feature (G : Type) where
  properties : Option Props
  geometry : Option G
deriving DecidableEq, Repr

/-- An axis-aligned bounding box, in turf's `[minX, minY, maxX, maxY]` layout. -/
structure Bbox where
  minX : ℚ
  minY : ℚ
  maxX : ℚ
  maxY : ℚ
deriving DecidableEq, Repr

/-- JS numbers as far as the pipeline's comparisons need them: NaN
(`Number` of a non-numeric string), finite values, and `Infinity`
(the default `GAP_AREA_MAX`). -/
inductive JSNum where
  | nan : JSNum
  | fin : ℚ → JSNum
  | inf : JSNum
deriving DecidableEq, Repr

/-- JS strict `a > b` on `JSNum`: any comparison with NaN is false,
`Infinity > x` holds for finite `x` only. -/
def jgt (a b : JSNum) : Bool :=
  match a, b with
  | .fin x, .fin y => decide (y < x)
  | .inf, .fin _ => true
  | _, _ => false

/-- The abstract geometry library: the turf primitives the script calls.
Fallible primitives return `Option` (`none` = the call threw, or — for
`intersect`/`difference` — returned null; the script reacts identically
to both).  `decompose` models splitting a MultiPolygon difference result
into its constituent polygons (`buildGapFeatures`, lines 99-101). -/
structure Turf where
  Geom : Type
  Point : Type
  union : Geom → Geom → Option Geom
  intersect : Geom → Geom → Option Geom
  difference : Geom → Geom → Option Geom
  bbox : Geom → Option Bbox
  centroid : Geom → Option Point
  area : Geom → JSNum
  distance : Point → Point → ℚ
  decompose : Geom → List Geom

/-- `feature.properties || {}` (lines 78, 132): null properties are replaced
by the empty object. -/
def propsOrEmpty (op : Option Props) : Props :=
  op.getD ⟨none, []⟩

/-- `feature?.properties?.postnummer` (lines 144, 182). -/
def codeOf {G : Type} (f : Feature G) : Option String :=
  f.properties.bind Props.postnummer

/-- The `postnummer` of a feature when it is truthy (line 145
`if (!postnummer) continue`): a missing key and the empty string are falsy. -/
def truthyCode {G : Type} (f : Feature G) : Option String :=
  (codeOf f).bind fun s => if s = "" then none else some s

/-- `turf.union(turf.featureCollection([a, b]))` at feature level: a missing
geometry on either side makes the union call throw (`none`); on success the
result is a fresh feature holding the unioned geometry (its properties are
never read downstream and are modelled as null). -/
def tryUnionF (t : Turf) (a b : Feature t.Geom) : Option (Feature t.Geom) :=
  match a.geometry, b.geometry with
  | some ga, some gb => (t.union ga gb).map fun g => ⟨none, some g⟩
  | _, _ => none

/-- One iteration of the `unionMask` loop (lines 41-51): a null accumulator
takes the feature; otherwise the union replaces the accumulator on success
and the catch block keeps the prior accumulator on failure. -/
def maskStep (t : Turf) (merged : Option (Feature t.Geom)) (feature : Feature t.Geom) :
    Option (Feature t.Geom) :=
  match merged with
  | none => some feature
  | some m =>
    match tryUnionF t m feature with
    | some u => some u
    | none => some m

/-- `unionMask` (lines 39-53): left fold of `maskStep` over the feature list
starting from null. -/
def unionMask (t : Turf) (features : List (Feature t.Geom)) : Option (Feature t.Geom) :=
  features.foldl (maskStep t) none

/-- The rectangle-overlap prefilter of `clipPostalCodes` (lines 68-72):
`featureBbox[0] <= landBbox[2] && featureBbox[2] >= landBbox[0] &&
featureBbox[1] <= landBbox[3] && featureBbox[3] >= landBbox[1]`. -/
def bboxOverlaps (a b : Bbox) : Bool :=
  decide (a.minX ≤ b.maxX) && decide (a.maxX ≥ b.minX) &&
  decide (a.minY ≤ b.maxY) && decide (a.maxY ≥ b.minY)

/-- The per-feature body of the `clipPostalCodes` loop (lines 60-84):
skip on null geometry; inside the try block compute the feature bbox
(`none` = threw, caught, skipped), reject if the boxes do not overlap,
intersect with the mask, and on a non-null intersection emit a feature
carrying the original properties (`|| {}`) and the intersected geometry. -/
def clipOne (t : Turf) (maskGeom : t.Geom) (landBbox : Bbox) (feature : Feature t.Geom) :
    Option (Feature t.Geom) :=
  feature.geometry.bind fun g =>
    (t.bbox g).bind fun featureBbox =>
      if bboxOverlaps featureBbox landBbox then
        (t.intersect g maskGeom).map fun ig =>
          ⟨some (propsOrEmpty feature.properties), some ig⟩
      else none

/-- `clipPostalCodes` (lines 55-87).  `turf.bbox(landMask)` is outside any
try block, so its failure (including a mask feature with no geometry) aborts
the run (`none`). -/
def clipPostalCodes (t : Turf) (postalFeatures : List (Feature t.Geom))
    (landMask : Feature t.Geom) : Option (List (Feature t.Geom)) :=
  landMask.geometry.bind fun mg =>
    (t.bbox mg).map fun landBbox =>
      postalFeatures.filterMap (clipOne t mg landBbox)

/-- `buildGapFeatures` (lines 89-104): null unioned postal coverage or a
failed/null difference yields no gaps; otherwise the difference is split
into its constituent polygons.  Gaps are represented by their geometry
(the features built around them carry no properties). -/
def buildGapFeatures (t : Turf) (landMask : Feature t.Geom)
    (unionedPostal : Option (Feature t.Geom)) : List t.Geom :=
  match unionedPostal with
  | none => []
  | some up =>
    match landMask.geometry, up.geometry with
    | some mg, some ug =>
      match t.difference mg ug with
      | none => []
      | some d => t.decompose d
    | _, _ => []

/-- One iteration of the nearest-candidate scan (lines 122-127):
`if (!best || distance < best.distance) best = { distance, feature }`. -/
def nearStep (t : Turf) (gapCenter : t.Point) (best : Option (ℚ × Feature t.Geom))
    (entry : Feature t.Geom × t.Point) : Option (ℚ × Feature t.Geom) :=
  let d := t.distance gapCenter entry.2
  match best with
  | none => some (d, entry.1)
  | some b => if d < b.1 then some (d, entry.1) else some b

/-- The inner for-loop of `assignGapsToNearest` (lines 120-127): fold the
candidate cache with `nearStep` starting from null. -/
def findNearest (t : Turf) (gapCenter : t.Point)
    (cache : List (Feature t.Geom × t.Point)) : Option (ℚ × Feature t.Geom) :=
  cache.foldl (nearStep t gapCenter) none

/-- `turf.centroid(feature)`: throws on a feature with no geometry, and may
fail on a degenerate geometry. -/
def featCentroid (t : Turf) (f : Feature t.Geom) : Option t.Point :=
  f.geometry.bind t.centroid

/-- The body of the `gaps.forEach` callback (lines 115-136): too-large gaps
are skipped (`area > GAP_AREA_MAX` with JS comparison semantics); the gap
centroid is computed outside any try block, so its failure aborts the run;
when a best candidate exists a feature with the candidate's properties
(`|| {}`) and the gap's geometry is appended. -/
def gapStep (t : Turf) (gmax : JSNum) (cache : List (Feature t.Geom × t.Point))
    (additions : List (Feature t.Geom)) (gap : t.Geom) : Option (List (Feature t.Geom)) :=
  if jgt (t.area gap) gmax then some additions
  else
    (t.centroid gap).map fun gapCenter =>
      match findNearest t gapCenter cache with
      | some best => additions ++ [⟨some (propsOrEmpty best.2.properties), some gap⟩]
      | none => additions

/-- `assignGapsToNearest` (lines 106-139): empty gap list returns `[]`
immediately; the centroid cache is built eagerly over all clipped features
(a centroid failure there is uncaught and aborts the run, `none`); then the
gaps are folded with `gapStep`. -/
def assignGapsToNearest (t : Turf) (gmax : JSNum) (clipped : List (Feature t.Geom))
    (gaps : List t.Geom) : Option (List (Feature t.Geom)) :=
  match gaps with
  | [] => some []
  | _ =>
    (clipped.mapM fun f => (featCentroid t f).map fun c => (f, c)).bind
      fun centroidCache => gaps.foldlM (gapStep t gmax centroidCache) []

/-- Insert a feature into the group map (lines 146-147): append to the
existing group of key `p`, else create a new group at the end (JS `Map`
preserves key insertion order). -/
def insertGroup {G : Type} (p : String) (f : Feature G) :
    List (String × List (Feature G)) → List (String × List (Feature G))
  | [] => [(p, [f])]
  | (q, g) :: rest =>
    if q = p then (q, g ++ [f]) :: rest else (q, g) :: insertGroup p f rest

/-- One iteration of the grouping loop of `dissolveByPostnummer`
(lines 143-148): features with a falsy `postnummer` are dropped. -/
def groupStep {G : Type} (acc : List (String × List (Feature G))) (f : Feature G) :
    List (String × List (Feature G)) :=
  match truthyCode f with
  | some p => insertGroup p f acc
  | none => acc

/-- The grouping phase of `dissolveByPostnummer` (lines 142-148). -/
def groupByPostnummer {G : Type} (features : List (Feature G)) :
    List (String × List (Feature G)) :=
  features.foldl groupStep []

/-- The per-group union-and-emit phase of `dissolveByPostnummer`
(lines 151-170): the group is folded with exactly the `unionMask`
fold-and-skip loop; a result with non-null geometry is emitted as a fresh
feature with properties `{ postnummer }`. -/
def dissolveGroup (t : Turf) (p : String) (group : List (Feature t.Geom)) :
    Option (Feature t.Geom) :=
  match unionMask t group with
  | some merged =>
    match merged.geometry with
    | some geo => some ⟨some ⟨some p, []⟩, some geo⟩
    | none => none
  | none => none

/-- `dissolveByPostnummer` (lines 141-173). -/
def dissolveByPostnummer (t : Turf) (features : List (Feature t.Geom)) :
    List (Feature t.Geom) :=
  (groupByPostnummer features).filterMap fun pg => dissolveGroup t pg.1 pg.2

/-- A label feature as built by `buildLabelPoints`: properties
`{ postnummer }` and a point geometry. -/
structure LabelPoint (P : Type) where
  postnummer : Option String
  point : P
deriving DecidableEq, Repr

/-- `buildLabelPoints` (lines 175-190): per dissolved feature, compute its
centroid inside a try block — on failure skip the feature — and emit a
point feature carrying `feature?.properties?.postnummer`. -/
def buildLabelPoints (t : Turf) (dissolved : List (Feature t.Geom)) :
    List (LabelPoint t.Point) :=
  dissolved.filterMap fun f => (featCentroid t f).map fun c => ⟨codeOf f, c⟩

/-- `const GAP_AREA_MAX = Number(process.env.GAP_AREA_MAX || Infinity)`
(line 18): an unset (`none`) or empty-string variable is falsy, so `||`
yields `Infinity`; otherwise `Number` is applied to the string, modelled by
the `parse` argument. -/
def gapAreaMax (env : Option String) (parse : String → JSNum) : JSNum :=
  match env with
  | none => .inf
  | some s => if s = "" then .inf else parse s

/-- The four `CLIP_MODE` values (line 17). -/
inductive Mode where
  | none : Mode
  | coast : Mode
  | border : Mode
  | gapfillBorder : Mode
deriving DecidableEq, Repr

/-- The mode dispatch of `run` producing the first output collection
(lines 196-250), with file I/O and logging stripped: `postalFeatures` is the
loaded postal collection's feature list and `maskFeatures` the normalized
mask feature list.  A thrown error (missing mask geometry, line 208/229, or
an uncaught geometric failure) is `none`. -/
def runClipStage (t : Turf) (gmax : JSNum) (mode : Mode)
    (postalFeatures : List (Feature t.Geom)) (maskFeatures : List (Feature t.Geom)) :
    Option (List (Feature t.Geom)) :=
  match mode with
  | .none => some postalFeatures
  | .gapfillBorder =>
    (unionMask t maskFeatures).bind fun borderMask =>
      let unionedPostal := unionMask t postalFeatures
      let gaps := buildGapFeatures t borderMask unionedPostal
      (assignGapsToNearest t gmax postalFeatures gaps).map fun additions =>
        postalFeatures ++ additions
  | .coast =>
    (unionMask t maskFeatures).bind fun landMask =>
      (clipPostalCodes t postalFeatures landMask).bind fun clipped =>
        let unionedPostal := unionMask t clipped
        let gaps := buildGapFeatures t landMask unionedPostal
        (assignGapsToNearest t gmax clipped gaps).map fun additions =>
          clipped ++ additions
  | .border =>
    (unionMask t maskFeatures).bind fun landMask =>
      clipPostalCodes t postalFeatures landMask

/-- Axis-aligned bounding box of a finite point set: componentwise min/max,
the semantics of `turf.bbox`; `none` on the empty set. -/
def bboxOf (pts : List (ℚ × ℚ)) : Option Bbox :=
  match pts with
  | [] => none
  | p :: rest =>
    some (rest.foldl
      (fun bb q => ⟨min bb.minX q.1, min bb.minY q.2, max bb.maxX q.1, max bb.maxY q.2⟩)
      ⟨p.1, p.2, p.1, p.2⟩)

/-- Representative point of a finite point set: its first point; `none` on
the empty set. -/
def centroidOf (pts : List (ℚ × ℚ)) : Option (ℚ × ℚ) :=
  match pts with
  | [] => none
  | p :: _ => some p

/-- A concrete, executable geometry library: geometries are finite lists of
rational points, set operations are pointwise, the bounding box is the
componentwise min/max, the centroid is the first point (failing on the empty
geometry), area is the point count, distance is the discrete metric. -/
def listTurf : Turf where
  Geom := List (ℚ × ℚ)
  Point := ℚ × ℚ
  union a b := some (a ++ b)
  intersect a b :=
    let c := a.filter fun p => decide (p ∈ b)
    if c.isEmpty then none else some c
  difference a b :=
    let c := a.filter fun p => !decide (p ∈ b)
    if c.isEmpty then none else some c
  bbox := bboxOf
  centroid := centroidOf
  area g := .fin g.length
  distance p q := if p = q then 0 else 1
  decompose g := [g]

/-! ## Basic lemmas about the mask-union fold -/

/-- The fold of `maskStep` never turns a non-null accumulator back into null. -/
theorem maskFold_some (t : Turf) (fs : List (Feature t.Geom)) (m : Feature t.Geom) :
    ∃ r, fs.foldl (maskStep t) (some m) = some r := by
  induction fs generalizing m with
  | nil => exact ⟨m, rfl⟩
  | cons f fs ih =>
    simp only [List.foldl_cons]
    cases h : maskStep t (some m) f with
    | none => simp [maskStep] at h; cases hu : tryUnionF t m f <;> simp [hu] at h
    | some m' => exact h ▸ ih m'

/-- `unionMask` on a singleton list returns the feature unchanged. -/
theorem unionMask_singleton (t : Turf) (f : Feature t.Geom) :
    unionMask t [f] = some f := rfl

/-! ## C6, C7, C9 -/

/-- C6: the Mask Unifier is a left fold that starts with the first feature as
accumulator; for each subsequent feature the accumulator becomes the union on
success and is kept unchanged when the union fails; the empty list yields
null. -/
theorem C6_unionMask_left_fold (t : Turf) :
    unionMask t ([] : List (Feature t.Geom)) = none ∧
    (∀ (f : Feature t.Geom) (fs : List (Feature t.Geom)),
      unionMask t (f :: fs) = fs.foldl (maskStep t) (some f)) ∧
    (∀ (m f : Feature t.Geom), tryUnionF t m f = none → maskStep t (some m) f = some m) ∧
    (∀ (m f u : Feature t.Geom), tryUnionF t m f = some u → maskStep t (some m) f = some u) := by
  refine ⟨rfl, fun f fs => rfl, fun m f h => ?_, fun m f u h => ?_⟩
  · simp [maskStep, h]
  · simp [maskStep, h]

/-- Witness for C6 at concrete inputs: a two-feature list where the second
union fails (the second feature has no geometry) keeps the first feature, and
a successful union replaces the accumulator. -/
theorem C6_unionMask_left_fold_witness :
    unionMask listTurf ([] : List (Feature listTurf.Geom)) = none ∧
    unionMask listTurf [(⟨some ⟨some "0150", []⟩, some [((0 : ℚ), (0 : ℚ))]⟩ : Feature listTurf.Geom),
      ⟨none, none⟩] =
      [(⟨none, none⟩ : Feature listTurf.Geom)].foldl (maskStep listTurf)
        (some ⟨some ⟨some "0150", []⟩, some [((0 : ℚ), (0 : ℚ))]⟩) ∧
    maskStep listTurf (some (⟨some ⟨some "0150", []⟩, some [((0 : ℚ), (0 : ℚ))]⟩ : Feature listTurf.Geom))
      ⟨none, none⟩ = some ⟨some ⟨some "0150", []⟩, some [((0 : ℚ), (0 : ℚ))]⟩ ∧
    maskStep listTurf (some (⟨some ⟨some "0150", []⟩, some [((0 : ℚ), (0 : ℚ))]⟩ : Feature listTurf.Geom))
      ⟨none, some [((1 : ℚ), (1 : ℚ))]⟩ = some ⟨none, some [((0 : ℚ), (0 : ℚ)), ((1 : ℚ), (1 : ℚ))]⟩ :=
  ⟨(C6_unionMask_left_fold listTurf).1,
   (C6_unionMask_left_fold listTurf).2.1 _ _,
   (C6_unionMask_left_fold listTurf).2.2.1 _ _ rfl,
   (C6_unionMask_left_fold listTurf).2.2.2 _ _ _ rfl⟩

/-- C7: in mode `none` the clip stage bypasses mask handling, clipping and
gap assignment entirely — for every geometry library, every gap-area
configuration and every mask input, the output is exactly the raw postal
feature list. -/
theorem C7_mode_none_identity (t : Turf) (gmax : JSNum)
    (postalFeatures maskFeatures : List (Feature t.Geom)) :
    runClipStage t gmax Mode.none postalFeatures maskFeatures = some postalFeatures := rfl

/-- C9: `unionMask` on a one-element list returns that feature unchanged, for
every geometry library (even one whose union always fails) and every feature
(even one with no geometry): no union is attempted and no validation is
applied to the first feature. -/
theorem C9_unionMask_one_element (t : Turf) (f : Feature t.Geom) :
    unionMask t [f] = some f := unionMask_singleton t f

/-! ## Lemmas about the JS comparison and the gap fold -/

/-- No JS number is strictly greater than NaN. -/
theorem jgt_nan (a : JSNum) : jgt a .nan = false := by cases a <;> rfl

/-- No JS number is strictly greater than Infinity. -/
theorem jgt_inf (a : JSNum) : jgt a .inf = false := by cases a <;> rfl

/-- Every feature present after folding the gaps with `gapStep` was either
present initially or was emitted for a gap in the list that passed the area
filter, carrying that gap's geometry. -/
theorem gapFold_mem (t : Turf) (gmax : JSNum) (cache : List (Feature t.Geom × t.Point)) :
    ∀ (gaps : List t.Geom) (init res : List (Feature t.Geom)),
      gaps.foldlM (gapStep t gmax cache) init = some res →
      ∀ a ∈ res, a ∈ init ∨
        ∃ g ∈ gaps, a.geometry = some g ∧ jgt (t.area g) gmax = false := by
  intro gaps
  induction gaps with
  | nil =>
    intro init res h a ha
    simp only [List.foldlM_nil, Option.pure_def, Option.some.injEq] at h
    exact Or.inl (h ▸ ha)
  | cons g gs ih =>
    intro init res h a ha
    rw [List.foldlM_cons] at h
    cases hstep : gapStep t gmax cache init g with
    | none =>
      rw [hstep] at h
      simp only [Option.bind_eq_bind, Option.none_bind] at h
      cases h
    | some init' =>
      rw [hstep] at h
      simp only [Option.bind_eq_bind, Option.some_bind] at h
      rcases ih init' res h a ha with hmem | ⟨g', hg', hgeo, harea⟩
      · unfold gapStep at hstep
        by_cases hbig : jgt (t.area g) gmax
        · rw [if_pos hbig] at hstep
          exact Or.inl (by cases hstep; exact hmem)
        · rw [if_neg hbig] at hstep
          cases hc : t.centroid g with
          | none => rw [hc] at hstep; exact absurd hstep (by simp)
          | some gc =>
            rw [hc] at hstep
            simp only [Option.map_some', Option.some.injEq] at hstep
            cases hfn : findNearest t gc cache with
            | none =>
              rw [hfn] at hstep
              exact Or.inl (by cases hstep; exact hmem)
            | some best =>
              rw [hfn] at hstep
              subst hstep
              rcases List.mem_append.mp hmem with hmem' | hmem'
              · exact Or.inl hmem'
              · refine Or.inr ⟨g, List.mem_cons_self g gs, ?_, Bool.of_not_eq_true hbig⟩
                cases List.mem_singleton.mp hmem'; rfl
      · exact Or.inr ⟨g', List.mem_cons_of_mem g hg', hgeo, harea⟩

/-! ## C4 -/

/-- C4: every feature the Gap Assigner emits comes from a gap that passed the
area filter — its geometry is that of a gap in the input list whose area does
not exceed the configured maximum; a gap whose area exceeds the maximum
contributes no feature. -/
theorem C4_gap_area_filter (t : Turf) (gmax : JSNum) (clipped : List (Feature t.Geom))
    (gaps : List t.Geom) (additions : List (Feature t.Geom))
    (h : assignGapsToNearest t gmax clipped gaps = some additions) :
    ∀ a ∈ additions, ∃ g ∈ gaps, a.geometry = some g ∧ jgt (t.area g) gmax = false := by
  intro a ha
  cases gaps with
  | nil =>
    unfold assignGapsToNearest at h
    cases h; cases ha
  | cons g gs =>
    unfold assignGapsToNearest at h
    cases hcache : List.mapM (fun f => (featCentroid t f).map fun c => (f, c)) clipped with
    | none => rw [hcache] at h; exact absurd h (by simp)
    | some cache =>
      rw [hcache] at h
      simp only [Option.bind_eq_bind, Option.some_bind] at h
      rcases gapFold_mem t gmax cache (g :: gs) [] additions h a ha with hmem | hgap
      · cases hmem
      · exact hgap

/-- Witness for C4 at concrete inputs: one candidate feature, two gaps of
area 1 and 2 with maximum 1; the single emitted feature carries the geometry
of the first gap, whose area does not exceed the maximum. -/
theorem C4_gap_area_filter_witness :
    ∃ g ∈ [[((1 : ℚ), (1 : ℚ))], [((2 : ℚ), (2 : ℚ)), ((3 : ℚ), (3 : ℚ))]],
      (⟨some ⟨some "0150", []⟩, some [((1 : ℚ), (1 : ℚ))]⟩ : Feature listTurf.Geom).geometry =
        some g ∧ jgt (listTurf.area g) (.fin 1) = false :=
  C4_gap_area_filter listTurf (.fin 1)
    [⟨some ⟨some "0150", []⟩, some [((0 : ℚ), (0 : ℚ))]⟩]
    [[((1 : ℚ), (1 : ℚ))], [((2 : ℚ), (2 : ℚ)), ((3 : ℚ), (3 : ℚ))]]
    [⟨some ⟨some "0150", []⟩, some [((1 : ℚ), (1 : ℚ))]⟩] rfl
    ⟨some ⟨some "0150", []⟩, some [((1 : ℚ), (1 : ℚ))]⟩ (List.mem_singleton.mpr rfl)

/-! ## C10 -/

/-- C10: a non-empty `GAP_AREA_MAX` string that `Number` turns into NaN makes
the configured maximum NaN, and since `area > NaN` is false for every area
the Gap Assigner behaves exactly as with an unbounded (Infinity) maximum:
no gap is discarded by the area filter. -/
theorem C10_nan_gap_area_max (t : Turf) (clipped : List (Feature t.Geom))
    (gaps : List t.Geom) (s : String) (parse : String → JSNum)
    (hs : s ≠ "") (hp : parse s = .nan) :
    gapAreaMax (some s) parse = .nan ∧
    assignGapsToNearest t .nan clipped gaps = assignGapsToNearest t .inf clipped gaps := by
  constructor
  · simp [gapAreaMax, hs, hp]
  · have hstep : ∀ cache, gapStep t .nan cache = gapStep t .inf cache := by
      intro cache
      funext adds gap
      simp [gapStep, jgt_nan, jgt_inf]
    unfold assignGapsToNearest
    cases gaps with
    | nil => rfl
    | cons g gs => simp only [hstep]

/-- Witness for C10 at concrete inputs: the string `"abc"` parsed to NaN
yields a NaN maximum, and gap assignment over a one-candidate, one-gap input
equals the Infinity-maximum run. -/
theorem C10_nan_gap_area_max_witness :
    gapAreaMax (some "abc") (fun _ => JSNum.nan) = .nan ∧
    assignGapsToNearest listTurf .nan
        [⟨some ⟨some "0150", []⟩, some [((0 : ℚ), (0 : ℚ))]⟩] [[((1 : ℚ), (1 : ℚ))]] =
      assignGapsToNearest listTurf .inf
        [⟨some ⟨some "0150", []⟩, some [((0 : ℚ), (0 : ℚ))]⟩] [[((1 : ℚ), (1 : ℚ))]] :=
  C10_nan_gap_area_max listTurf
    [⟨some ⟨some "0150", []⟩, some [((0 : ℚ), (0 : ℚ))]⟩] [[((1 : ℚ), (1 : ℚ))]]
    "abc" (fun _ => JSNum.nan) (by decide) rfl

/-! ## Bounding-box lemmas and C8 -/

/-- The bbox fold only widens the accumulator box and bounds every folded
point. -/
theorem bboxFold_bounds (rest : List (ℚ × ℚ)) :
    ∀ bb0 : Bbox,
      (rest.foldl
        (fun bb q => ⟨min bb.minX q.1, min bb.minY q.2, max bb.maxX q.1, max bb.maxY q.2⟩)
        bb0).minX ≤ bb0.minX ∧
      (rest.foldl
        (fun bb q => ⟨min bb.minX q.1, min bb.minY q.2, max bb.maxX q.1, max bb.maxY q.2⟩)
        bb0).minY ≤ bb0.minY ∧
      bb0.maxX ≤ (rest.foldl
        (fun bb q => ⟨min bb.minX q.1, min bb.minY q.2, max bb.maxX q.1, max bb.maxY q.2⟩)
        bb0).maxX ∧
      bb0.maxY ≤ (rest.foldl
        (fun bb q => ⟨min bb.minX q.1, min bb.minY q.2, max bb.maxX q.1, max bb.maxY q.2⟩)
        bb0).maxY ∧
      ∀ q ∈ rest,
        (rest.foldl
          (fun bb q => ⟨min bb.minX q.1, min bb.minY q.2, max bb.maxX q.1, max bb.maxY q.2⟩)
          bb0).minX ≤ q.1 ∧
        q.1 ≤ (rest.foldl
          (fun bb q => ⟨min bb.minX q.1, min bb.minY q.2, max bb.maxX q.1, max bb.maxY q.2⟩)
          bb0).maxX ∧
        (rest.foldl
          (fun bb q => ⟨min bb.minX q.1, min bb.minY q.2, max bb.maxX q.1, max bb.maxY q.2⟩)
          bb0).minY ≤ q.2 ∧
        q.2 ≤ (rest.foldl
          (fun bb q => ⟨min bb.minX q.1, min bb.minY q.2, max bb.maxX q.1, max bb.maxY q.2⟩)
          bb0).maxY := by
  induction rest with
  | nil => intro bb0; exact ⟨le_refl _, le_refl _, le_refl _, le_refl _, by intro q hq; cases hq⟩
  | cons r rs ih =>
    intro bb0
    simp only [List.foldl_cons]
    obtain ⟨h1, h2, h3, h4, h5⟩ :=
      ih ⟨min bb0.minX r.1, min bb0.minY r.2, max bb0.maxX r.1, max bb0.maxY r.2⟩
    refine ⟨le_trans h1 (min_le_left _ _), le_trans h2 (min_le_left _ _),
      le_trans (le_max_left _ _) h3, le_trans (le_max_left _ _) h4, ?_⟩
    intro q hq
    rcases List.mem_cons.mp hq with hq | hq
    · subst hq
      exact ⟨le_trans h1 (min_le_right _ _), le_trans (le_max_right _ _) h3,
        le_trans h2 (min_le_right _ _), le_trans (le_max_right _ _) h4⟩
    · exact h5 q hq

/-- Every point of a point set lies inside its computed bounding box. -/
theorem bboxOf_bounds (pts : List (ℚ × ℚ)) (bb : Bbox) (h : bboxOf pts = some bb)
    (p : ℚ × ℚ) (hp : p ∈ pts) :
    bb.minX ≤ p.1 ∧ p.1 ≤ bb.maxX ∧ bb.minY ≤ p.2 ∧ p.2 ≤ bb.maxY := by
  cases pts with
  | nil => cases hp
  | cons q rest =>
    simp only [bboxOf, Option.some.injEq] at h
    subst h
    obtain ⟨h1, h2, h3, h4, h5⟩ := bboxFold_bounds rest ⟨q.1, q.2, q.1, q.2⟩
    rcases List.mem_cons.mp hp with hp | hp
    · subst hp; exact ⟨h1, h3, h2, h4⟩
    · obtain ⟨k1, k2, k3, k4⟩ := h5 p hp
      exact ⟨k1, k2, k3, k4⟩

/-- C8: the rectangle-overlap prefilter is never a false negative — if two
geometries share a point, both bounding boxes exist and the overlap test used
by the Boundary Clipper evaluates to true, so a feature truly overlapping the
mask is never rejected by the prefilter. -/
theorem C8_bbox_prefilter_no_false_negative (A B : List (ℚ × ℚ)) (p : ℚ × ℚ)
    (hA : p ∈ A) (hB : p ∈ B) :
    ∃ ba bb, bboxOf A = some ba ∧ bboxOf B = some bb ∧ bboxOverlaps ba bb = true := by
  cases hbA : bboxOf A with
  | none => cases A with
    | nil => cases hA
    | cons q rest => simp [bboxOf] at hbA
  | some ba =>
    cases hbB : bboxOf B with
    | none => cases B with
      | nil => cases hB
      | cons q rest => simp [bboxOf] at hbB
    | some bb =>
      obtain ⟨a1, a2, a3, a4⟩ := bboxOf_bounds A ba hbA p hA
      obtain ⟨b1, b2, b3, b4⟩ := bboxOf_bounds B bb hbB p hB
      refine ⟨ba, bb, rfl, rfl, ?_⟩
      simp only [bboxOverlaps, Bool.and_eq_true, decide_eq_true_eq, ge_iff_le]
      exact ⟨⟨⟨le_trans a1 b2, le_trans b1 a2⟩, le_trans a3 b4⟩, le_trans b3 a4⟩

/-- Witness for C8 at concrete inputs: two point sets sharing the point
`(1, 1)` have overlapping bounding boxes. -/
theorem C8_bbox_prefilter_no_false_negative_witness :
    ∃ ba bb, bboxOf [((0 : ℚ), (0 : ℚ)), (1, 1)] = some ba ∧
      bboxOf [((1 : ℚ), (1 : ℚ)), (5, 7)] = some bb ∧ bboxOverlaps ba bb = true :=
  C8_bbox_prefilter_no_false_negative [((0 : ℚ), (0 : ℚ)), (1, 1)]
    [((1 : ℚ), (1 : ℚ)), (5, 7)] (1, 1)
    (List.mem_cons_of_mem _ (List.mem_singleton.mpr rfl))
    (List.mem_cons_self _ _)

/-! ## Characterization of the nearest-candidate scan and C5 -/

/-- Folding `nearStep` from a non-null best candidate always yields a non-null
result, and the result is either the starting candidate (when no scanned
entry is strictly nearer) or the first scanned entry strictly nearer than the
start and not farther than any other entry. -/
theorem nearFold_char (t : Turf) (gc : t.Point) :
    ∀ (l : List (Feature t.Geom × t.Point)) (b : ℚ × Feature t.Geom),
      ∃ r, l.foldl (nearStep t gc) (some b) = some r ∧
        ((r = b ∧ ∀ e ∈ l, b.1 ≤ t.distance gc e.2) ∨
         (∃ l1 e l2, l = l1 ++ e :: l2 ∧ r = (t.distance gc e.2, e.1) ∧
            t.distance gc e.2 < b.1 ∧
            (∀ e' ∈ l1, t.distance gc e.2 < t.distance gc e'.2) ∧
            (∀ e' ∈ l2, t.distance gc e.2 ≤ t.distance gc e'.2))) := by
  intro l
  induction l with
  | nil => intro b; exact ⟨b, rfl, Or.inl ⟨rfl, by intro e he; cases he⟩⟩
  | cons e l ih =>
    intro b
    simp only [List.foldl_cons]
    by_cases hd : t.distance gc e.2 < b.1
    · have hstep : nearStep t gc (some b) e = some (t.distance gc e.2, e.1) := by
        simp [nearStep, hd]
      rw [hstep]
      obtain ⟨r, hr, hcase⟩ := ih (t.distance gc e.2, e.1)
      refine ⟨r, hr, Or.inr ?_⟩
      rcases hcase with ⟨hre, hall⟩ | ⟨l1, e', l2, heq, hre, hlt, hfirst, hrest⟩
      · exact ⟨[], e, l, by simp, hre, hd, (by intro x hx; cases hx), hall⟩
      · refine ⟨e :: l1, e', l2, (by rw [heq]; rfl), hre, lt_trans hlt hd, ?_, hrest⟩
        intro x hx
        rcases List.mem_cons.mp hx with hx | hx
        · subst hx; exact hlt
        · exact hfirst x hx
    · have hstep : nearStep t gc (some b) e = some b := by
        simp [nearStep, hd]
      rw [hstep]
      obtain ⟨r, hr, hcase⟩ := ih b
      refine ⟨r, hr, ?_⟩
      rcases hcase with ⟨hre, hall⟩ | ⟨l1, e', l2, heq, hre, hlt, hfirst, hrest⟩
      · refine Or.inl ⟨hre, ?_⟩
        intro x hx
        rcases List.mem_cons.mp hx with hx | hx
        · subst hx; exact le_of_not_lt hd
        · exact hall x hx
      · refine Or.inr ⟨e :: l1, e', l2, (by rw [heq]; rfl), hre, hlt, ?_, hrest⟩
        intro x hx
        rcases List.mem_cons.mp hx with hx | hx
        · subst hx; exact lt_of_lt_of_le hlt (le_of_not_lt hd)
        · exact hfirst x hx

/-- With an empty candidate cache the gap fold leaves the additions list
untouched. -/
theorem gapFold_empty_cache (t : Turf) (gmax : JSNum) :
    ∀ (gaps : List t.Geom) (init res : List (Feature t.Geom)),
      gaps.foldlM (gapStep t gmax []) init = some res → res = init := by
  intro gaps
  induction gaps with
  | nil =>
    intro init res h
    simp only [List.foldlM_nil, Option.pure_def, Option.some.injEq] at h
    exact h.symm
  | cons g gs ih =>
    intro init res h
    rw [List.foldlM_cons] at h
    cases hstep : gapStep t gmax [] init g with
    | none =>
      rw [hstep] at h
      simp only [Option.bind_eq_bind, Option.none_bind] at h
      cases h
    | some init' =>
      rw [hstep] at h
      simp only [Option.bind_eq_bind, Option.some_bind] at h
      have hres := ih init' res h
      unfold gapStep at hstep
      by_cases hbig : jgt (t.area g) gmax
      · rw [if_pos hbig] at hstep
        cases hstep
        exact hres
      · rw [if_neg hbig] at hstep
        cases hc : t.centroid g with
        | none => rw [hc] at hstep; cases hstep
        | some gc =>
          rw [hc] at hstep
          simp only [Option.map_some', Option.some.injEq] at hstep
          exact hres.trans hstep.symm

/-- C5: the nearest-candidate selection is deterministic with a first-wins
tie-break.  An empty cache yields no best candidate and the Gap Assigner
emits nothing for an empty candidate list; a non-empty cache always yields a
best candidate; and the selected candidate attains the minimum distance to
the gap centroid while every candidate placed earlier is strictly farther —
so among exactly equidistant candidates the earliest in iteration order
wins. -/
theorem C5_nearest_first_wins (t : Turf) (gc : t.Point) :
    findNearest t gc [] = none ∧
    (∀ (cache : List (Feature t.Geom × t.Point)) (e : Feature t.Geom × t.Point),
      e ∈ cache → findNearest t gc cache ≠ none) ∧
    (∀ (cache : List (Feature t.Geom × t.Point)) (d : ℚ) (f : Feature t.Geom),
      findNearest t gc cache = some (d, f) →
      ∃ l1 e l2, cache = l1 ++ e :: l2 ∧ d = t.distance gc e.2 ∧ f = e.1 ∧
        (∀ e' ∈ cache, d ≤ t.distance gc e'.2) ∧
        (∀ e' ∈ l1, d < t.distance gc e'.2)) ∧
    (∀ (gmax : JSNum) (gaps : List t.Geom) (adds : List (Feature t.Geom)),
      assignGapsToNearest t gmax [] gaps = some adds → adds = []) := by
  refine ⟨rfl, ?_, ?_, ?_⟩
  · intro cache e he
    cases cache with
    | nil => cases he
    | cons e0 rest =>
      obtain ⟨r, hr, _⟩ := nearFold_char t gc rest (t.distance gc e0.2, e0.1)
      intro hnone
      rw [show findNearest t gc (e0 :: rest) =
        rest.foldl (nearStep t gc) (some (t.distance gc e0.2, e0.1)) from rfl, hr] at hnone
      cases hnone
  · intro cache d f h
    cases cache with
    | nil => cases h
    | cons e0 rest =>
      rw [show findNearest t gc (e0 :: rest) =
        rest.foldl (nearStep t gc) (some (t.distance gc e0.2, e0.1)) from rfl] at h
      obtain ⟨r, hr, hcase⟩ := nearFold_char t gc rest (t.distance gc e0.2, e0.1)
      rw [hr] at h
      injection h with h
      subst h
      rcases hcase with ⟨hre, hall⟩ | ⟨l1, e', l2, heq, hre, hlt, hfirst, hrest⟩
      · injection hre with hd' hf'
        subst hd'
        subst hf'
        refine ⟨[], e0, rest, rfl, rfl, rfl, ?_,
          fun x hx => absurd hx (List.not_mem_nil x)⟩
        intro x hx
        rcases List.mem_cons.mp hx with hx | hx
        · subst hx; exact le_refl _
        · exact hall x hx
      · injection hre with hd' hf'
        subst hd'
        subst hf'
        refine ⟨e0 :: l1, e', l2, (by rw [heq]; rfl), rfl, rfl, ?_, ?_⟩
        · intro x hx
          rcases List.mem_cons.mp hx with hx | hx
          · subst hx; exact le_of_lt hlt
          · rw [heq] at hx
            rcases List.mem_append.mp hx with hx | hx
            · exact le_of_lt (hfirst x hx)
            · rcases List.mem_cons.mp hx with hx | hx
              · subst hx; exact le_refl _
              · exact hrest x hx
        · intro x hx
          rcases List.mem_cons.mp hx with hx | hx
          · subst hx; exact hlt
          · exact hfirst x hx
  · intro gmax gaps adds h
    cases gaps with
    | nil =>
      unfold assignGapsToNearest at h
      cases h; rfl
    | cons g gs =>
      unfold assignGapsToNearest at h
      simp only [List.mapM_nil, Option.pure_def, Option.bind_eq_bind, Option.some_bind] at h
      exact gapFold_empty_cache t gmax (g :: gs) [] adds h

/-- Witness for C5 at concrete inputs: two candidates exactly equidistant
from the gap centroid — the decomposition produced by the theorem for the
observed result `some (1, first candidate)`, the non-null result for a
member of a non-empty cache, and the empty-candidate run of the Gap
Assigner. -/
theorem C5_nearest_first_wins_witness :
    findNearest listTurf ((0 : ℚ), (0 : ℚ)) [] = none ∧
    findNearest listTurf ((0 : ℚ), (0 : ℚ))
      [((⟨some ⟨some "0101", []⟩, some [((1 : ℚ), (0 : ℚ))]⟩ : Feature listTurf.Geom),
          ((1 : ℚ), (0 : ℚ))),
       ((⟨some ⟨some "0102", []⟩, some [((0 : ℚ), (1 : ℚ))]⟩ : Feature listTurf.Geom),
          ((0 : ℚ), (1 : ℚ)))] ≠ none ∧
    (∃ l1 e l2,
      [((⟨some ⟨some "0101", []⟩, some [((1 : ℚ), (0 : ℚ))]⟩ : Feature listTurf.Geom),
          ((1 : ℚ), (0 : ℚ))),
       ((⟨some ⟨some "0102", []⟩, some [((0 : ℚ), (1 : ℚ))]⟩ : Feature listTurf.Geom),
          ((0 : ℚ), (1 : ℚ)))] = l1 ++ e :: l2 ∧
      (1 : ℚ) = listTurf.distance ((0 : ℚ), (0 : ℚ)) e.2 ∧
      (⟨some ⟨some "0101", []⟩, some [((1 : ℚ), (0 : ℚ))]⟩ : Feature listTurf.Geom) = e.1 ∧
      (∀ e' ∈ [((⟨some ⟨some "0101", []⟩, some [((1 : ℚ), (0 : ℚ))]⟩ : Feature listTurf.Geom),
          ((1 : ℚ), (0 : ℚ))),
        ((⟨some ⟨some "0102", []⟩, some [((0 : ℚ), (1 : ℚ))]⟩ : Feature listTurf.Geom),
          ((0 : ℚ), (1 : ℚ)))],
        (1 : ℚ) ≤ listTurf.distance ((0 : ℚ), (0 : ℚ)) e'.2) ∧
      (∀ e' ∈ l1, (1 : ℚ) < listTurf.distance ((0 : ℚ), (0 : ℚ)) e'.2)) ∧
    ([] : List (Feature listTurf.Geom)) = [] :=
  ⟨(C5_nearest_first_wins listTurf ((0 : ℚ), (0 : ℚ))).1,
   (C5_nearest_first_wins listTurf ((0 : ℚ), (0 : ℚ))).2.1 _
     ((⟨some ⟨some "0101", []⟩, some [((1 : ℚ), (0 : ℚ))]⟩ : Feature listTurf.Geom),
        ((1 : ℚ), (0 : ℚ)))
     (List.mem_cons_self _ _),
   (C5_nearest_first_wins listTurf ((0 : ℚ), (0 : ℚ))).2.2.1 _ 1
     (⟨some ⟨some "0101", []⟩, some [((1 : ℚ), (0 : ℚ))]⟩ : Feature listTurf.Geom) rfl,
   (C5_nearest_first_wins listTurf ((0 : ℚ), (0 : ℚ))).2.2.2 .inf [[((1 : ℚ), (1 : ℚ))]] [] rfl⟩

/-! ## Provenance lemmas: where codes and properties come from -/

/-- `codeOf` sees through the `|| {}` default on properties. -/
theorem codeOf_propsOrEmpty {G : Type} (P : Option Props) (g g' : Option G) :
    codeOf (⟨some (propsOrEmpty P), g⟩ : Feature G) = codeOf (⟨P, g'⟩ : Feature G) := by
  cases P <;> rfl

/-- `truthyCode` only depends on the properties of a feature. -/
theorem truthyCode_congr {G : Type} (f f' : Feature G)
    (h : f.properties = f'.properties) : truthyCode f = truthyCode f' := by
  simp [truthyCode, codeOf, h]

/-- Keys appearing after an `insertGroup` are the inserted key or old keys. -/
theorem insertGroup_key_mem {G : Type} (p : String) (f : Feature G) :
    ∀ (l : List (String × List (Feature G))) (q : String),
      q ∈ (insertGroup p f l).map Prod.fst → q = p ∨ q ∈ l.map Prod.fst := by
  intro l
  induction l with
  | nil =>
    intro q hq
    simp only [insertGroup, List.map_cons, List.map_nil] at hq
    exact Or.inl (List.mem_singleton.mp hq)
  | cons e rest ih =>
    intro q hq
    unfold insertGroup at hq
    by_cases he : e.1 = p
    · rw [if_pos he] at hq
      simp only [List.map_cons] at hq
      rcases List.mem_cons.mp hq with hq | hq
      · exact Or.inr (by simp [hq])
      · exact Or.inr (List.mem_cons_of_mem _ hq)
    · rw [if_neg he] at hq
      simp only [List.map_cons] at hq
      rcases List.mem_cons.mp hq with hq | hq
      · exact Or.inr (by simp [hq])
      · rcases ih q hq with hq | hq
        · exact Or.inl hq
        · exact Or.inr (List.mem_cons_of_mem _ hq)

/-- Every key produced by the grouping fold either was a key of the starting
accumulator or is the truthy code of some folded feature. -/
theorem groupFold_key_mem {G : Type} :
    ∀ (fs : List (Feature G)) (acc : List (String × List (Feature G))) (q : String),
      q ∈ (fs.foldl groupStep acc).map Prod.fst →
      q ∈ acc.map Prod.fst ∨ ∃ f ∈ fs, truthyCode f = some q := by
  intro fs
  induction fs with
  | nil => intro acc q hq; exact Or.inl hq
  | cons f fs ih =>
    intro acc q hq
    rw [List.foldl_cons] at hq
    rcases ih (groupStep acc f) q hq with hq | ⟨f', hf', hc⟩
    · unfold groupStep at hq
      cases hc : truthyCode f with
      | none => rw [hc] at hq; exact Or.inl hq
      | some p =>
        rw [hc] at hq
        rcases insertGroup_key_mem p f acc q hq with hq | hq
        · exact Or.inr ⟨f, List.mem_cons_self f fs, by rw [hc, hq]⟩
        · exact Or.inl hq
    · exact Or.inr ⟨f', List.mem_cons_of_mem f hf', hc⟩

/-- Every key of `groupByPostnummer` is the truthy code of an input
feature. -/
theorem groupByPostnummer_key_mem {G : Type} (fs : List (Feature G)) (q : String)
    (hq : q ∈ (groupByPostnummer fs).map Prod.fst) :
    ∃ f ∈ fs, truthyCode f = some q := by
  rcases groupFold_key_mem fs [] q hq with h | h
  · cases h
  · exact h

/-- Shape of dissolved features: every output of the Dissolver carries
properties `{ postnummer: p }` for some `p` that is the truthy code of some
input feature, and a non-null geometry. -/
theorem dissolve_shape (t : Turf) (out : List (Feature t.Geom)) (fd : Feature t.Geom)
    (hfd : fd ∈ dissolveByPostnummer t out) :
    ∃ p geo, fd = ⟨some ⟨some p, []⟩, some geo⟩ ∧ ∃ f ∈ out, truthyCode f = some p := by
  unfold dissolveByPostnummer at hfd
  rcases List.mem_filterMap.mp hfd with ⟨pg, hpg, hdg⟩
  unfold dissolveGroup at hdg
  split at hdg
  · split at hdg
    · rename_i geo hg
      refine ⟨pg.1, geo, (Option.some.inj hdg).symm, ?_⟩
      exact groupByPostnummer_key_mem out pg.1
        (List.mem_map.mpr ⟨pg, hpg, rfl⟩)
    · cases hdg
  · cases hdg

/-- Every label point comes from a dissolved feature and copies its code. -/
theorem buildLabelPoints_mem (t : Turf) (dissolved : List (Feature t.Geom))
    (lp : LabelPoint t.Point) (hlp : lp ∈ buildLabelPoints t dissolved) :
    ∃ fd ∈ dissolved, lp.postnummer = codeOf fd := by
  unfold buildLabelPoints at hlp
  rcases List.mem_filterMap.mp hlp with ⟨fd, hfd, hc⟩
  cases hcen : featCentroid t fd with
  | none => rw [hcen] at hc; cases hc
  | some c =>
    rw [hcen] at hc
    simp only [Option.map_some', Option.some.injEq] at hc
    exact ⟨fd, hfd, by rw [← hc]⟩

/-- Membership through `List.mapM` over `Option`: every element of a
successful result comes from applying the function to some input element. -/
theorem mapM_mem {α β : Type} (g : α → Option β) :
    ∀ (l : List α) (res : List β), l.mapM g = some res →
      ∀ x ∈ res, ∃ a ∈ l, g a = some x := by
  intro l
  induction l with
  | nil =>
    intro res h x hx
    cases h
    cases hx
  | cons a l ih =>
    intro res h x hx
    rw [List.mapM_cons] at h
    cases hga : g a with
    | none => rw [hga] at h; cases h
    | some b =>
      rw [hga] at h
      cases hrest : l.mapM g with
      | none =>
        rw [hrest] at h
        cases h
      | some bs =>
        rw [hrest] at h
        simp only [Option.pure_def, Option.bind_eq_bind, Option.some_bind,
          Option.some.injEq] at h
        subst h
        rcases List.mem_cons.mp hx with hx | hx
        · exact ⟨a, List.mem_cons_self a l, by rw [hga, hx]⟩
        · rcases ih bs hrest x hx with ⟨a', ha', hga'⟩
          exact ⟨a', List.mem_cons_of_mem a ha', hga'⟩

/-- The best candidate returned by the nearest scan is a cache member. -/
theorem findNearest_mem (t : Turf) (gc : t.Point)
    (cache : List (Feature t.Geom × t.Point)) (d : ℚ) (f : Feature t.Geom)
    (h : findNearest t gc cache = some (d, f)) : ∃ e ∈ cache, f = e.1 := by
  cases cache with
  | nil => cases h
  | cons e0 rest =>
    rw [show findNearest t gc (e0 :: rest) =
      rest.foldl (nearStep t gc) (some (t.distance gc e0.2, e0.1)) from rfl] at h
    obtain ⟨r, hr, hcase⟩ := nearFold_char t gc rest (t.distance gc e0.2, e0.1)
    rw [hr] at h
    injection h with h
    subst h
    rcases hcase with ⟨hre, _⟩ | ⟨l1, e', l2, heq, hre, _, _, _⟩
    · injection hre with hd' hf'
      exact ⟨e0, List.mem_cons_self e0 rest, hf'⟩
    · injection hre with hd' hf'
      exact ⟨e', List.mem_cons_of_mem e0 (heq ▸ List.mem_append_right l1
        (List.mem_cons_self e' l2)), hf'⟩

/-- Every feature present after the gap fold was present initially or copies
the properties (through `|| {}`) of a cached candidate feature. -/
theorem gapFold_props (t : Turf) (gmax : JSNum) (cache : List (Feature t.Geom × t.Point)) :
    ∀ (gaps : List t.Geom) (init res : List (Feature t.Geom)),
      gaps.foldlM (gapStep t gmax cache) init = some res →
      ∀ a ∈ res, a ∈ init ∨
        ∃ e ∈ cache, a.properties = some (propsOrEmpty e.1.properties) := by
  intro gaps
  induction gaps with
  | nil =>
    intro init res h a ha
    simp only [List.foldlM_nil, Option.pure_def, Option.some.injEq] at h
    exact Or.inl (h ▸ ha)
  | cons g gs ih =>
    intro init res h a ha
    rw [List.foldlM_cons] at h
    cases hstep : gapStep t gmax cache init g with
    | none =>
      rw [hstep] at h
      simp only [Option.bind_eq_bind, Option.none_bind] at h
      cases h
    | some init' =>
      rw [hstep] at h
      simp only [Option.bind_eq_bind, Option.some_bind] at h
      rcases ih init' res h a ha with hmem | hfound
      · unfold gapStep at hstep
        by_cases hbig : jgt (t.area g) gmax
        · rw [if_pos hbig] at hstep
          cases hstep
          exact Or.inl hmem
        · rw [if_neg hbig] at hstep
          cases hc : t.centroid g with
          | none => rw [hc] at hstep; cases hstep
          | some gc =>
            rw [hc] at hstep
            simp only [Option.map_some', Option.some.injEq] at hstep
            cases hfn : findNearest t gc cache with
            | none =>
              rw [hfn] at hstep
              cases hstep
              exact Or.inl hmem
            | some best =>
              rw [hfn] at hstep
              subst hstep
              rcases List.mem_append.mp hmem with hmem' | hmem'
              · exact Or.inl hmem'
              · rcases findNearest_mem t gc cache best.1 best.2 (by rw [hfn]) with ⟨e, he, hbe⟩
                refine Or.inr ⟨e, he, ?_⟩
                cases List.mem_singleton.mp hmem'
                rw [hbe]
      · exact Or.inr hfound

/-- Every feature emitted by the Gap Assigner copies the properties (through
`|| {}`) of a candidate feature. -/
theorem assignGaps_props (t : Turf) (gmax : JSNum) (clipped : List (Feature t.Geom))
    (gaps : List t.Geom) (additions : List (Feature t.Geom))
    (h : assignGapsToNearest t gmax clipped gaps = some additions) :
    ∀ a ∈ additions, ∃ c ∈ clipped, a.properties = some (propsOrEmpty c.properties) := by
  intro a ha
  cases gaps with
  | nil =>
    unfold assignGapsToNearest at h
    cases h
    cases ha
  | cons g gs =>
    unfold assignGapsToNearest at h
    cases hcache : List.mapM (fun f => (featCentroid t f).map fun c => (f, c)) clipped with
    | none => rw [hcache] at h; cases h
    | some cache =>
      rw [hcache] at h
      simp only [Option.bind_eq_bind, Option.some_bind] at h
      rcases gapFold_props t gmax cache (g :: gs) [] additions h a ha with hmem | ⟨e, he, hp⟩
      · cases hmem
      · rcases mapM_mem _ clipped cache hcache e he with ⟨c, hc, hgc⟩
        refine ⟨c, hc, ?_⟩
        cases hfc : featCentroid t c with
        | none => rw [hfc] at hgc; cases hgc
        | some pt =>
          rw [hfc] at hgc
          simp only [Option.map_some', Option.some.injEq] at hgc
          rw [hp, ← hgc]

/-- Every clipped feature copies the properties (through `|| {}`) of an input
postal feature. -/
theorem clipPostalCodes_props (t : Turf) (postalFeatures : List (Feature t.Geom))
    (landMask : Feature t.Geom) (clipped : List (Feature t.Geom))
    (h : clipPostalCodes t postalFeatures landMask = some clipped) :
    ∀ c ∈ clipped, ∃ f ∈ postalFeatures,
      c.properties = some (propsOrEmpty f.properties) := by
  intro c hc
  unfold clipPostalCodes at h
  cases hmg : landMask.geometry with
  | none => rw [hmg] at h; cases h
  | some mg =>
    rw [hmg] at h
    simp only [Option.some_bind] at h
    cases hbb : t.bbox mg with
    | none => rw [hbb] at h; cases h
    | some landBbox =>
      rw [hbb] at h
      simp only [Option.map_some', Option.some.injEq] at h
      subst h
      rcases List.mem_filterMap.mp hc with ⟨f, hf, hclip⟩
      refine ⟨f, hf, ?_⟩
      unfold clipOne at hclip
      cases hg : f.geometry with
      | none => rw [hg] at hclip; cases hclip
      | some g =>
        rw [hg] at hclip
        simp only [Option.some_bind] at hclip
        cases hfb : t.bbox g with
        | none => rw [hfb] at hclip; cases hclip
        | some fb =>
          rw [hfb] at hclip
          simp only [Option.some_bind] at hclip
          by_cases hov : bboxOverlaps fb landBbox
          · rw [if_pos hov] at hclip
            cases hint : t.intersect g mg with
            | none => rw [hint] at hclip; cases hclip
            | some ig =>
              rw [hint] at hclip
              simp only [Option.map_some', Option.some.injEq] at hclip
              rw [← hclip]
          · rw [if_neg hov] at hclip
            cases hclip

/-- Every feature of the clip-stage output (modes other than `none`) carries
the properties of some input postal feature, either verbatim or through the
`|| {}` default. -/
theorem runClipStage_props (t : Turf) (gmax : JSNum) (mode : Mode)
    (postalFeatures maskFeatures out : List (Feature t.Geom))
    (hmode : mode ≠ Mode.none)
    (hrun : runClipStage t gmax mode postalFeatures maskFeatures = some out) :
    ∀ f' ∈ out, ∃ f ∈ postalFeatures,
      f'.properties = f.properties ∨
      f'.properties = some (propsOrEmpty f.properties) := by
  intro f' hf'
  cases mode with
  | none => exact absurd rfl hmode
  | gapfillBorder =>
    unfold runClipStage at hrun
    cases hbm : unionMask t maskFeatures with
    | none => rw [hbm] at hrun; cases hrun
    | some borderMask =>
      rw [hbm] at hrun
      simp only [Option.some_bind] at hrun
      cases hadd : assignGapsToNearest t gmax postalFeatures
          (buildGapFeatures t borderMask (unionMask t postalFeatures)) with
      | none => rw [hadd] at hrun; cases hrun
      | some additions =>
        rw [hadd] at hrun
        simp only [Option.map_some', Option.some.injEq] at hrun
        subst hrun
        rcases List.mem_append.mp hf' with hf' | hf'
        · exact ⟨f', hf', Or.inl rfl⟩
        · rcases assignGaps_props t gmax postalFeatures _ additions hadd f' hf'
            with ⟨c, hc, hp⟩
          exact ⟨c, hc, Or.inr hp⟩
  | coast =>
    unfold runClipStage at hrun
    cases hlm : unionMask t maskFeatures with
    | none => rw [hlm] at hrun; cases hrun
    | some landMask =>
      rw [hlm] at hrun
      simp only [Option.some_bind] at hrun
      cases hclip : clipPostalCodes t postalFeatures landMask with
      | none => rw [hclip] at hrun; cases hrun
      | some clipped =>
        rw [hclip] at hrun
        simp only [Option.some_bind] at hrun
        cases hadd : assignGapsToNearest t gmax clipped
            (buildGapFeatures t landMask (unionMask t clipped)) with
        | none => rw [hadd] at hrun; cases hrun
        | some additions =>
          rw [hadd] at hrun
          simp only [Option.map_some', Option.some.injEq] at hrun
          subst hrun
          rcases List.mem_append.mp hf' with hf' | hf'
          · rcases clipPostalCodes_props t postalFeatures landMask clipped hclip f' hf'
              with ⟨f, hf, hp⟩
            exact ⟨f, hf, Or.inr hp⟩
          · rcases assignGaps_props t gmax clipped _ additions hadd f' hf'
              with ⟨c, hc, hpc⟩
            rcases clipPostalCodes_props t postalFeatures landMask clipped hclip c hc
              with ⟨f, hf, hpf⟩
            refine ⟨f, hf, Or.inr ?_⟩
            rw [hpc, hpf]
            simp [propsOrEmpty]
  | border =>
    unfold runClipStage at hrun
    cases hlm : unionMask t maskFeatures with
    | none => rw [hlm] at hrun; cases hrun
    | some landMask =>
      rw [hlm] at hrun
      simp only [Option.some_bind] at hrun
      rcases clipPostalCodes_props t postalFeatures landMask out hrun f' hf'
        with ⟨f, hf, hp⟩
      exact ⟨f, hf, Or.inr hp⟩

/-- A truthy code is the feature's code. -/
theorem truthyCode_imp_codeOf {G : Type} (f : Feature G) (p : String)
    (h : truthyCode f = some p) : codeOf f = some p := by
  unfold truthyCode at h
  cases hc : codeOf f with
  | none => rw [hc] at h; cases h
  | some s =>
    rw [hc] at h
    simp only [Option.some_bind] at h
    by_cases hs : s = ""
    · rw [if_pos hs] at h; cases h
    · rw [if_neg hs] at h
      injection h with h
      rw [h]

/-- The truthy code is unchanged by the `|| {}` properties default. -/
theorem truthyCode_propsOrEmpty {G : Type} (f f' : Feature G)
    (h : f'.properties = some (propsOrEmpty f.properties)) :
    truthyCode f' = truthyCode f := by
  unfold truthyCode codeOf
  rw [h]
  cases hfp : f.properties <;> simp [propsOrEmpty]

/-! ## C1 -/

/-- C1: for every run in a mode other than `none`, every code appearing on a
dissolved feature or on a label point is the code of some feature of the
input postal collection — no stage introduces a code absent from the
input. -/
theorem C1_output_codes_from_input (t : Turf) (gmax : JSNum) (mode : Mode)
    (postalFeatures maskFeatures out : List (Feature t.Geom))
    (hmode : mode ≠ Mode.none)
    (hrun : runClipStage t gmax mode postalFeatures maskFeatures = some out)
    (p : String)
    (hp : (∃ fd ∈ dissolveByPostnummer t out, codeOf fd = some p) ∨
      (∃ lp ∈ buildLabelPoints t (dissolveByPostnummer t out), lp.postnummer = some p)) :
    ∃ f ∈ postalFeatures, codeOf f = some p := by
  have hdiss : ∃ fd ∈ dissolveByPostnummer t out, codeOf fd = some p := by
    rcases hp with hp | ⟨lp, hlp, hc⟩
    · exact hp
    · rcases buildLabelPoints_mem t _ lp hlp with ⟨fd, hfd, hcode⟩
      exact ⟨fd, hfd, by rw [← hcode, hc]⟩
  rcases hdiss with ⟨fd, hfd, hcode⟩
  rcases dissolve_shape t out fd hfd with ⟨q, geo, hshape, f1, hf1, htr⟩
  have hqp : q = p := by
    rw [hshape] at hcode
    exact Option.some.inj hcode
  subst hqp
  rcases runClipStage_props t gmax mode postalFeatures maskFeatures out hmode hrun f1 hf1
    with ⟨f, hf, hprop | hprop⟩
  · refine ⟨f, hf, ?_⟩
    have : truthyCode f = some q := by
      rw [← truthyCode_congr f1 f hprop]
      exact htr
    exact truthyCode_imp_codeOf f q this
  · refine ⟨f, hf, ?_⟩
    have : truthyCode f = some q := by
      rw [← truthyCode_propsOrEmpty f f1 hprop]
      exact htr
    exact truthyCode_imp_codeOf f q this

/-- Witness for C1 at concrete inputs: a border-mode run over one postal
feature with code `"0150"` and a one-feature mask; the dissolved output's
code `"0150"` is traced back to the input feature. -/
theorem C1_output_codes_from_input_witness :
    ∃ f ∈ [(⟨some ⟨some "0150", []⟩, some [((0 : ℚ), (0 : ℚ))]⟩ : Feature listTurf.Geom)],
      codeOf f = some "0150" :=
  C1_output_codes_from_input listTurf .inf Mode.border
    [⟨some ⟨some "0150", []⟩, some [((0 : ℚ), (0 : ℚ))]⟩]
    [⟨some ⟨none, []⟩, some [((0 : ℚ), (0 : ℚ))]⟩]
    [⟨some ⟨some "0150", []⟩, some [((0 : ℚ), (0 : ℚ))]⟩]
    (by decide) rfl "0150"
    (Or.inl ⟨⟨some ⟨some "0150", []⟩, some [((0 : ℚ), (0 : ℚ))]⟩,
      List.mem_singleton.mpr rfl, rfl⟩)

/-! ## Dissolver structure lemmas and C2 -/

/-- The truthy code of a feature with properties `{ postnummer: p }`. -/
theorem truthyCode_mk {G : Type} (p : String) (g : Option G) :
    truthyCode (⟨some ⟨some p, []⟩, g⟩ : Feature G) =
      if p = "" then none else some p := rfl

/-- A truthy code is never the empty string. -/
theorem truthyCode_ne_empty {G : Type} (f : Feature G) (p : String)
    (h : truthyCode f = some p) : p ≠ "" := by
  unfold truthyCode at h
  cases hc : codeOf f with
  | none => rw [hc] at h; cases h
  | some s =>
    rw [hc] at h
    simp only [Option.some_bind] at h
    by_cases hs : s = ""
    · rw [if_pos hs] at h; cases h
    · rw [if_neg hs] at h
      injection h with h
      exact h ▸ hs

/-- Shape of a successful `dissolveGroup` result. -/
theorem dissolveGroup_shape (t : Turf) (p : String) (group : List (Feature t.Geom))
    (fd : Feature t.Geom) (h : dissolveGroup t p group = some fd) :
    ∃ geo, fd = ⟨some ⟨some p, []⟩, some geo⟩ := by
  unfold dissolveGroup at h
  split at h
  · split at h
    · rename_i geo hg
      exact ⟨geo, (Option.some.inj h).symm⟩
    · cases h
  · cases h

/-- Inserting under a key absent from a prefix leaves the prefix intact. -/
theorem insertGroup_append {G : Type} (p : String) (f : Feature G) :
    ∀ (acc1 l : List (String × List (Feature G))),
      p ∉ acc1.map Prod.fst →
      insertGroup p f (acc1 ++ l) = acc1 ++ insertGroup p f l := by
  intro acc1
  induction acc1 with
  | nil => intro l h; rfl
  | cons e rest ih =>
    intro l h
    obtain ⟨q, g⟩ := e
    have hne : q ≠ p := by
      intro hc
      exact h (by simp [hc])
    simp only [List.cons_append, insertGroup, if_neg hne, List.append_eq]
    rw [ih l (fun hm => h (by simp [hm]))]

/-- `insertGroup` preserves pairwise-distinct keys. -/
theorem insertGroup_pairwise {G : Type} (p : String) (f : Feature G) :
    ∀ (l : List (String × List (Feature G))),
      l.Pairwise (fun a b => a.1 ≠ b.1) →
      (insertGroup p f l).Pairwise (fun a b => a.1 ≠ b.1) := by
  intro l
  induction l with
  | nil =>
    intro _
    simp [insertGroup]
  | cons e rest ih =>
    intro h
    obtain ⟨q, g⟩ := e
    rw [List.pairwise_cons] at h
    obtain ⟨hq, hrest⟩ := h
    by_cases hqp : q = p
    · simp only [insertGroup, if_pos hqp]
      exact List.pairwise_cons.mpr ⟨hq, hrest⟩
    · simp only [insertGroup, if_neg hqp]
      refine List.pairwise_cons.mpr ⟨?_, ih hrest⟩
      intro b hb
      rcases insertGroup_key_mem p f rest b.1 (List.mem_map.mpr ⟨b, hb, rfl⟩) with hbp | hbm
      · rw [hbp]; exact hqp
      · rcases List.mem_map.mp hbm with ⟨b', hb', hbe⟩
        exact hbe ▸ hq b' hb'

/-- The grouping fold preserves pairwise-distinct keys. -/
theorem groupFold_pairwise {G : Type} :
    ∀ (fs : List (Feature G)) (acc : List (String × List (Feature G))),
      acc.Pairwise (fun a b => a.1 ≠ b.1) →
      (fs.foldl groupStep acc).Pairwise (fun a b => a.1 ≠ b.1) := by
  intro fs
  induction fs with
  | nil => intro acc h; exact h
  | cons f fs ih =>
    intro acc h
    rw [List.foldl_cons]
    apply ih
    unfold groupStep
    cases hc : truthyCode f with
    | none => exact h
    | some p => exact insertGroup_pairwise p f acc h

/-- Grouping features whose codes avoid the keys of a prefix accumulator
extends only the suffix. -/
theorem groupFold_append {G : Type} :
    ∀ (fs : List (Feature G)) (acc1 acc2 : List (String × List (Feature G))),
      (∀ f ∈ fs, ∀ q, truthyCode f = some q → q ∉ acc1.map Prod.fst) →
      fs.foldl groupStep (acc1 ++ acc2) = acc1 ++ fs.foldl groupStep acc2 := by
  intro fs
  induction fs with
  | nil => intro acc1 acc2 h; rfl
  | cons f fs ih =>
    intro acc1 acc2 h
    rw [List.foldl_cons, List.foldl_cons]
    have hstep : groupStep (acc1 ++ acc2) f = acc1 ++ groupStep acc2 f := by
      unfold groupStep
      cases hc : truthyCode f with
      | none => rfl
      | some p =>
        exact insertGroup_append p f acc1 acc2 (h f (List.mem_cons_self f fs) p hc)
    rw [hstep]
    exact ih acc1 (groupStep acc2 f) (fun f' hf' q hq => h f' (List.mem_cons_of_mem f hf') q hq)

/-- Dissolved features have pairwise-distinct truthy codes. -/
theorem dissolve_pairwise (t : Turf) (out : List (Feature t.Geom)) :
    (dissolveByPostnummer t out).Pairwise (fun a b => truthyCode a ≠ truthyCode b) := by
  unfold dissolveByPostnummer
  refine List.Pairwise.filterMap (fun pg => dissolveGroup t pg.1 pg.2) ?_
    (groupFold_pairwise out [] List.Pairwise.nil)
  intro pg qg hne a ha b hb
  obtain ⟨geo1, ha'⟩ := dissolveGroup_shape t pg.1 pg.2 a (Option.mem_def.mp ha)
  obtain ⟨geo2, hb'⟩ := dissolveGroup_shape t qg.1 qg.2 b (Option.mem_def.mp hb)
  subst ha'
  subst hb'
  rw [truthyCode_mk, truthyCode_mk]
  by_cases h1 : pg.1 = "" <;> by_cases h2 : qg.1 = ""
  · exact absurd (h1.trans h2.symm) hne
  · simp [h1, h2]
  · simp [h1, h2]
  · simp [h1, h2, hne]

/-- Dissolving a list that is already in dissolved shape — every feature has
properties `{ postnummer: p }` with non-empty `p` and a non-null geometry,
and codes are pairwise distinct — returns the list unchanged. -/
theorem dissolve_canonical (t : Turf) :
    ∀ (L : List (Feature t.Geom)),
      (∀ fL ∈ L, ∃ p geo, p ≠ "" ∧ fL = ⟨some ⟨some p, []⟩, some geo⟩) →
      L.Pairwise (fun a b => truthyCode a ≠ truthyCode b) →
      dissolveByPostnummer t L = L := by
  intro L
  induction L with
  | nil => intro _ _; rfl
  | cons f L ih =>
    intro hshape hpw
    obtain ⟨p, geo, hp, hf⟩ := hshape f (List.mem_cons_self f L)
    rw [List.pairwise_cons] at hpw
    obtain ⟨hhead, htail⟩ := hpw
    subst hf
    have htr : truthyCode (⟨some ⟨some p, []⟩, some geo⟩ : Feature t.Geom) = some p := by
      rw [truthyCode_mk, if_neg hp]
    have hgroup : groupByPostnummer ((⟨some ⟨some p, []⟩, some geo⟩ : Feature t.Geom) :: L) =
        (p, [⟨some ⟨some p, []⟩, some geo⟩]) :: groupByPostnummer L := by
      unfold groupByPostnummer
      rw [List.foldl_cons]
      have hstep : groupStep ([] : List (String × List (Feature t.Geom)))
          ⟨some ⟨some p, []⟩, some geo⟩ = [(p, [⟨some ⟨some p, []⟩, some geo⟩])] := by
        unfold groupStep
        rw [htr]
        rfl
      rw [hstep]
      have happ := groupFold_append L [(p, [⟨some ⟨some p, []⟩, some geo⟩])] [] ?_
      · simpa using happ
      · intro f' hf' q hq
        simp only [List.map_cons, List.map_nil, List.mem_singleton]
        intro hqp
        exact hhead f' hf' (by rw [htr, hq, hqp])
    unfold dissolveByPostnummer
    rw [hgroup]
    have hdg : dissolveGroup t p [(⟨some ⟨some p, []⟩, some geo⟩ : Feature t.Geom)] =
        some ⟨some ⟨some p, []⟩, some geo⟩ := rfl
    rw [List.filterMap_cons]
    simp only [hdg]
    have hL := ih (fun fL hfL => hshape fL (List.mem_cons_of_mem _ hfL)) htail
    unfold dissolveByPostnummer at hL
    rw [hL]

/-! ## C2 -/

/-- C2: the Dissolver is idempotent — applying `dissolveByPostnummer` to its
own output returns exactly the same feature list (same codes, identical
geometries), because each second-pass code group contains exactly one feature
and the fold returns it unchanged. -/
theorem C2_dissolve_idempotent (t : Turf) (features : List (Feature t.Geom)) :
    dissolveByPostnummer t (dissolveByPostnummer t features) =
      dissolveByPostnummer t features := by
  apply dissolve_canonical
  · intro fL hfL
    rcases dissolve_shape t features fL hfL with ⟨p, geo, heq, f, hf, htr⟩
    exact ⟨p, geo, truthyCode_ne_empty f p htr, heq⟩
  · exact dissolve_pairwise t features

/-! ## C3 -/

/-- When every centroid succeeds, the Label Builder emits exactly one label
per feature, carrying its code, in order. -/
theorem buildLabelPoints_total (t : Turf) :
    ∀ (dissolved : List (Feature t.Geom)),
      (∀ fd ∈ dissolved, (featCentroid t fd).isSome) →
      (buildLabelPoints t dissolved).map LabelPoint.postnummer = dissolved.map codeOf := by
  intro dissolved
  induction dissolved with
  | nil => intro _; rfl
  | cons fd D ih =>
    intro hcen
    have hs := hcen fd (List.mem_cons_self fd D)
    cases hc : featCentroid t fd with
    | none => rw [hc] at hs; cases hs
    | some c =>
      unfold buildLabelPoints
      rw [List.filterMap_cons]
      simp only [hc, Option.map_some']
      simp only [List.map_cons]
      have := ih (fun f hf => hcen f (List.mem_cons_of_mem fd hf))
      unfold buildLabelPoints at this
      rw [this]

/-- C3 counterexample: a dissolved collection whose single feature's centroid
computation fails yields an empty label collection — the dissolved code
`"0150"` appears on no label point, so the codes are not in bijection. -/
theorem C3_label_bijection_counterexample :
    (dissolveByPostnummer listTurf
        [⟨some ⟨some "0150", []⟩, some ([] : List (ℚ × ℚ))⟩]).map codeOf = [some "0150"] ∧
    buildLabelPoints listTurf (dissolveByPostnummer listTurf
        [⟨some ⟨some "0150", []⟩, some ([] : List (ℚ × ℚ))⟩]) = [] :=
  ⟨rfl, rfl⟩

/-- C3 (amended): for every dissolved collection all of whose features admit
a centroid, the label-point codes coincide with the dissolved codes, one
label per dissolved feature, and the dissolved codes are pairwise distinct —
a bijection between label codes and dissolved codes. -/
theorem C3_label_codes_bijection (t : Turf) (fs : List (Feature t.Geom))
    (hcen : ∀ fd ∈ dissolveByPostnummer t fs, (featCentroid t fd).isSome) :
    (buildLabelPoints t (dissolveByPostnummer t fs)).map LabelPoint.postnummer =
      (dissolveByPostnummer t fs).map codeOf ∧
    ((dissolveByPostnummer t fs).map codeOf).Nodup := by
  refine ⟨buildLabelPoints_total t _ hcen, ?_⟩
  show List.Pairwise (fun a b => a ≠ b) ((dissolveByPostnummer t fs).map codeOf)
  apply List.pairwise_map.mpr
  refine List.Pairwise.imp_of_mem ?_ (dissolve_pairwise t fs)
  intro a b ha hb hne hcode
  rcases dissolve_shape t fs a ha with ⟨pa, geoa, hea, fa, hfa, htra⟩
  rcases dissolve_shape t fs b hb with ⟨pb, geob, heb, fb, hfb, htrb⟩
  have hpa : pa ≠ "" := truthyCode_ne_empty fa pa htra
  have hpb : pb ≠ "" := truthyCode_ne_empty fb pb htrb
  apply hne
  subst hea
  subst heb
  rw [truthyCode_mk, truthyCode_mk, if_neg hpa, if_neg hpb]
  simp only [codeOf, Option.some_bind] at hcode
  exact hcode

/-- Witness for C3 (amended) at concrete inputs: one feature with code
`"0150"` and a centroid-admitting geometry — the label codes equal the
dissolved codes and are duplicate-free. -/
theorem C3_label_codes_bijection_witness :
    (buildLabelPoints listTurf (dissolveByPostnummer listTurf
        [⟨some ⟨some "0150", []⟩, some [((0 : ℚ), (0 : ℚ))]⟩])).map LabelPoint.postnummer =
      (dissolveByPostnummer listTurf
        [⟨some ⟨some "0150", []⟩, some [((0 : ℚ), (0 : ℚ))]⟩]).map codeOf ∧
    ((dissolveByPostnummer listTurf
        [⟨some ⟨some "0150", []⟩, some [((0 : ℚ), (0 : ℚ))]⟩]).map codeOf).Nodup :=
  C3_label_codes_bijection listTurf
    [⟨some ⟨some "0150", []⟩, some [((0 : ℚ), (0 : ℚ))]⟩]
    (by
      intro fd hfd
      rcases List.mem_singleton.mp hfd with h
      rw [h]
      rfl)
